import Mathlib

/-!
Verification of the thermal-printer image pipeline and BLE transfer logic.

The definitions below are shallow embeddings of the JavaScript functions in
the repository (`usePrintPreparation` / `useBluetoothPrinter` hooks, the
`App.jsx` variant and the standalone script variant).  Pixel buffers are
modelled as total functions from byte index to channel value; JavaScript
floating-point luminance arithmetic is modelled with exact rationals;
`Uint8Array` stores are modelled with `% 256`.
-/

/-- Luminance of an RGB pixel, `0.299*r + 0.587*g + 0.114*b`
(the formula used verbatim in `applyFloydSteinbergDither`,
`trimImageMargins`' `pixelIsWhite` and `getImagePrintData`). -/
def luminanceQ (r g b : Nat) : ℚ := 0.299 * r + 0.587 * g + 0.114 * b

/-- A raster buffer: width, height, and the RGBA sample store
(`data[i]` for `i = (y*width + x)*4 + channel`), modelled as a total
function so that out-of-range reads are harmless, as in the claims'
scope every access is in range. -/
structure ImageData where
  width : Nat
  height : Nat
  data : Nat → Nat

/-- One bit of the packer `getImagePrintData`: pixel `xByte*8 + bit` of row
`y` produces a printed dot exactly when its alpha is nonzero (the `continue`
on `alpha === 0`) and its luminance is strictly below the dither threshold. -/
def packBit (T : ℚ) (img : ImageData) (y xByte bit : Nat) : Bool :=
  let idx := (y * img.width + (xByte * 8 + bit)) * 4
  if img.data (idx + 3) = 0 then false
  else decide (luminanceQ (img.data idx) (img.data (idx + 1)) (img.data (idx + 2)) < T)

/-- One payload byte of `getImagePrintData`: the inner `for bit` loop,
`byte |= 1 << (7 - bit)` for each qualifying bit. -/
def packByte (T : ℚ) (img : ImageData) (y xByte : Nat) : Nat :=
  (List.range 8).foldl
    (fun byte bit => if packBit T img y xByte bit then byte ||| (1 <<< (7 - bit)) else byte) 0

/-- The packer `getImagePrintData`: 8-byte raster-command header followed by
`bytesPerRow * height` payload bytes, row-major.  `Uint8Array` element stores
wrap modulo 256, hence the `% 256` on the header cells the source assigns
from unbounded numbers. -/
def getImagePrintData (T : ℚ) (img : ImageData) : List Nat :=
  let bytesPerRow := img.width / 8
  [29, 118, 48, 0, bytesPerRow % 256, 0, img.height % 256, (img.height / 256) % 256] ++
    ((List.range img.height).map
      (fun y => (List.range bytesPerRow).map (fun xByte => packByte T img y xByte))).flatten

theorem getImagePrintData_len (T : ℚ) (img : ImageData) :
    (getImagePrintData T img).length = 8 + (img.width / 8) * img.height := by
  unfold getImagePrintData
  simp only [List.length_append, List.length_flatten, List.map_map]
  simp [Function.comp_def, List.map_const', List.sum_replicate, smul_eq_mul, Nat.mul_comm]

/-- Claim C1 (amended): for a buffer of width `W` (a positive multiple of 8,
with `W/8` representable in the single header byte, i.e. `W ≤ 2040`) and
height `H` with `1 ≤ H ≤ 65535`, `getImagePrintData` returns exactly
`8 + (W/8)*H` bytes whose first 8 bytes are
`[0x1D, 0x76, 0x30, 0x00, W/8, 0x00, H % 256, H / 256]`. -/
theorem getImagePrintData_length_header (T : ℚ) (img : ImageData)
    (h8 : img.width % 8 = 0) (hpos : 0 < img.width) (hW : img.width ≤ 2040)
    (hH1 : 1 ≤ img.height) (hH : img.height ≤ 65535) :
    (getImagePrintData T img).length = 8 + (img.width / 8) * img.height ∧
    (getImagePrintData T img).take 8 =
      [0x1D, 0x76, 0x30, 0x00, img.width / 8, 0x00, img.height % 256, img.height / 256] := by
  refine ⟨getImagePrintData_len T img, ?_⟩
  have h1 : img.width / 8 % 256 = img.width / 8 := by omega
  have h2 : img.height / 256 % 256 = img.height / 256 := by omega
  unfold getImagePrintData
  simp only [List.cons_append, List.nil_append, List.take_succ_cons, List.take_zero, h1, h2]

/-- Claim C1, witness: the amended theorem applied to an 8×1 buffer. -/
theorem getImagePrintData_length_header_witness :
    ((8:Nat) % 8 = 0 ∧ (0:Nat) < 8 ∧ (8:Nat) ≤ 2040 ∧ (1:Nat) ≤ 1 ∧ (1:Nat) ≤ 65535) ∧
    (getImagePrintData 128 ⟨8, 1, fun _ => 0⟩).length = 8 + (8 / 8) * 1 ∧
    (getImagePrintData 128 ⟨8, 1, fun _ => 0⟩).take 8 =
      [0x1D, 0x76, 0x30, 0x00, 8 / 8, 0x00, 1 % 256, 1 / 256] :=
  ⟨by decide,
    getImagePrintData_length_header 128 ⟨8, 1, fun _ => 0⟩ (by decide) (by decide) (by decide)
      (by decide) (by decide)⟩

/-- Claim C1, counterexample to the original claim: for width 2048
(`W/8 = 256`) the `Uint8Array` store wraps the fifth header byte to
`256 % 256 = 0`, so the header is not `[0x1D,0x76,0x30,0x00, W/8, ...]`. -/
theorem getImagePrintData_header_wraps :
    (getImagePrintData 128 ⟨2048, 1, fun _ => 0⟩).take 8 ≠
      [0x1D, 0x76, 0x30, 0x00, 2048 / 8, 0x00, 1 % 256, 1 / 256] := by decide

theorem testBit_byteFold (cond : Nat → Bool) (L : List Nat) (init : Nat) (j : Nat) :
    (L.foldl (fun byte bit => if cond bit then byte ||| (1 <<< (7 - bit)) else byte) init).testBit j
      = (init.testBit j || L.any (fun bit => cond bit && decide (7 - bit = j))) := by
  induction L generalizing init with
  | nil => simp
  | cons b L ih =>
    simp only [List.foldl_cons, List.any_cons]
    rw [ih]
    by_cases hb : cond b
    · simp [hb, Nat.testBit_or, Nat.shiftLeft_eq, Nat.testBit_two_pow, Bool.or_assoc]
    · simp [hb]

theorem packByte_testBit (T : ℚ) (img : ImageData) (y xByte : Nat) (bit : Nat) (hb : bit < 8) :
    (packByte T img y xByte).testBit (7 - bit) = packBit T img y xByte bit := by
  unfold packByte
  rw [testBit_byteFold]
  simp only [Nat.zero_testBit, Bool.false_or]
  have hr : List.range 8 = [0, 1, 2, 3, 4, 5, 6, 7] := rfl
  rw [hr]
  interval_cases bit <;> simp

/-- Claim C2: a payload bit at position `7 - bit` of the row byte built by the
packer is set iff the pixel's alpha is nonzero and its luminance
`0.299r + 0.587g + 0.114b` is strictly below the dither threshold; in
particular, a pixel with alpha 0 never sets a bit. -/
theorem getImagePrintData_payload_bit (T : ℚ) (img : ImageData) (y xByte bit : Nat)
    (hb : bit < 8) :
    (packByte T img y xByte).testBit (7 - bit) = true ↔
      (img.data ((y * img.width + (xByte * 8 + bit)) * 4 + 3) ≠ 0 ∧
        luminanceQ (img.data ((y * img.width + (xByte * 8 + bit)) * 4))
          (img.data ((y * img.width + (xByte * 8 + bit)) * 4 + 1))
          (img.data ((y * img.width + (xByte * 8 + bit)) * 4 + 2)) < T) := by
  rw [packByte_testBit T img y xByte bit hb]
  unfold packBit
  by_cases ha : img.data ((y * img.width + (xByte * 8 + bit)) * 4 + 3) = 0 <;> simp [ha]

/-- Claim C2, witness: the theorem applied to an 8×1 all-black opaque buffer
at bit 0; the dot bit is set because alpha is 255 and luminance 0 < 128. -/
theorem getImagePrintData_payload_bit_witness :
    (0:Nat) < 8 ∧
    ((packByte 128 ⟨8, 1, fun i => if i % 4 = 3 then 255 else 0⟩ 0 0).testBit (7 - 0) = true ↔
      ((fun i => if i % 4 = 3 then (255:Nat) else 0) ((0 * 8 + (0 * 8 + 0)) * 4 + 3) ≠ 0 ∧
        luminanceQ ((fun i => if i % 4 = 3 then (255:Nat) else 0) ((0 * 8 + (0 * 8 + 0)) * 4))
          ((fun i => if i % 4 = 3 then (255:Nat) else 0) ((0 * 8 + (0 * 8 + 0)) * 4 + 1))
          ((fun i => if i % 4 = 3 then (255:Nat) else 0) ((0 * 8 + (0 * 8 + 0)) * 4 + 2)) < 128)) :=
  ⟨by decide,
    getImagePrintData_payload_bit 128 ⟨8, 1, fun i => if i % 4 = 3 then 255 else 0⟩ 0 0 0
      (by decide)⟩

/-- State threaded through `applyFloydSteinbergDither`: the RGBA store being
mutated in place plus the shared `Float32Array` luminance error accumulator
(modelled as exact rationals). -/
structure DitherState where
  data : Nat → Nat
  err : Nat → ℚ

/-- Add `v` at index `j` of an error buffer (`errorBuffer[j] += v`). -/
def bumpErr (f : Nat → ℚ) (j : Nat) (v : ℚ) : Nat → ℚ :=
  fun i => if i = j then f j + v else f i

/-- One iteration of the dither double loop at pixel `(y, x)`: threshold the
error-adjusted luminance, write the binary value to R, G, B and force alpha
255, then diffuse the quantization error to the east, southwest, south and
southeast neighbours that exist (weights 7/16, 3/16, 5/16, 1/16). -/
def ditherStep (T : ℚ) (w h : Nat) (s : DitherState) (yx : Nat × Nat) : DitherState :=
  let y := yx.1
  let x := yx.2
  let idx := y * w + x
  let d := 4 * idx
  let baseGray := luminanceQ (s.data d) (s.data (d + 1)) (s.data (d + 2))
  let adjustedGray := baseGray + s.err idx
  let output : Nat := if T ≤ adjustedGray then 255 else 0
  let error : ℚ := adjustedGray - output
  let data' : Nat → Nat := fun i =>
    if i = d then output else if i = d + 1 then output
    else if i = d + 2 then output else if i = d + 3 then 255 else s.data i
  let e1 := if x + 1 < w then bumpErr s.err (idx + 1) (error * 7 / 16) else s.err
  let e2 := if y + 1 < h ∧ 0 < x then bumpErr e1 (idx + w - 1) (error * 3 / 16) else e1
  let e3 := if y + 1 < h then bumpErr e2 (idx + w) (error * 5 / 16) else e2
  let e4 := if y + 1 < h ∧ x + 1 < w then bumpErr e3 (idx + w + 1) (error * 1 / 16) else e3
  ⟨data', e4⟩

/-- Raster-order pixel coordinates `(y, x)` of the dither double loop. -/
def pixList (w h : Nat) : List (Nat × Nat) :=
  ((List.range h).map (fun y => (List.range w).map (fun x => (y, x)))).flatten

/-- `applyFloydSteinbergDither`: fold the per-pixel step over the whole
buffer in raster order, starting from a zero error accumulator. -/
def applyFloydSteinbergDither (T : ℚ) (img : ImageData) : ImageData :=
  ⟨img.width, img.height,
    ((pixList img.width img.height).foldl (ditherStep T img.width img.height)
      ⟨img.data, fun _ => 0⟩).data⟩

/-- A binarized pixel: equal R, G, B channels, each 0 or 255, alpha 255. -/
def goodPix (d : Nat → Nat) (i : Nat) : Prop :=
  (d (4 * i) = 0 ∨ d (4 * i) = 255) ∧ d (4 * i + 1) = d (4 * i) ∧
    d (4 * i + 2) = d (4 * i) ∧ d (4 * i + 3) = 255

theorem ditherStep_establishes (T : ℚ) (w h : Nat) (s : DitherState) (y x : Nat) :
    goodPix (ditherStep T w h s (y, x)).data (y * w + x) := by
  unfold ditherStep goodPix
  by_cases hT : T ≤ luminanceQ (s.data (4 * (y * w + x))) (s.data (4 * (y * w + x) + 1))
      (s.data (4 * (y * w + x) + 2)) + s.err (y * w + x) <;>
    simp [hT]

theorem ditherStep_preserves (T : ℚ) (w h : Nat) (s : DitherState) (p : Nat × Nat) (i : Nat)
    (hg : goodPix s.data i) : goodPix (ditherStep T w h s p).data i := by
  by_cases hi : i = p.1 * w + p.2
  · subst hi
    exact ditherStep_establishes T w h s p.1 p.2
  · unfold ditherStep goodPix
    obtain ⟨h0, h1, h2, h3⟩ := hg
    refine ⟨?_, ?_, ?_, ?_⟩ <;> simp only <;> split_ifs <;> omega

theorem foldl_dither_preserves (T : ℚ) (w h : Nat) (L : List (Nat × Nat)) (s : DitherState)
    (i : Nat) (hg : goodPix s.data i) :
    goodPix ((L.foldl (ditherStep T w h) s).data) i := by
  induction L generalizing s with
  | nil => exact hg
  | cons p L ih => exact ih _ (ditherStep_preserves T w h s p i hg)

theorem foldl_dither_mem (T : ℚ) (w h : Nat) (L : List (Nat × Nat)) (s : DitherState)
    (y x : Nat) (hmem : (y, x) ∈ L) :
    goodPix ((L.foldl (ditherStep T w h) s).data) (y * w + x) := by
  induction L generalizing s with
  | nil => cases hmem
  | cons p L ih =>
    rcases List.mem_cons.mp hmem with hp | hp
    · subst hp
      exact foldl_dither_preserves T w h L _ _ (ditherStep_establishes T w h s y x)
    · exact ih _ hp

theorem mem_pixList (w h y x : Nat) (hy : y < h) (hx : x < w) : (y, x) ∈ pixList w h := by
  unfold pixList
  rw [List.mem_flatten]
  exact ⟨(List.range w).map (fun x => (y, x)),
    List.mem_map.mpr ⟨y, List.mem_range.mpr hy, rfl⟩,
    List.mem_map.mpr ⟨x, List.mem_range.mpr hx, rfl⟩⟩

/-- Claim C3: for every input buffer, after `applyFloydSteinbergDither`
every pixel's R, G, B channels are equal to each other, each is exactly 0 or
exactly 255, and the alpha channel is exactly 255. -/
theorem applyFloydSteinbergDither_binary (T : ℚ) (img : ImageData) (i : Nat)
    (hi : i < img.width * img.height) :
    goodPix (applyFloydSteinbergDither T img).data i := by
  have hw : 0 < img.width := by
    rcases Nat.eq_zero_or_pos img.width with h0 | h0
    · rw [h0] at hi; omega
    · exact h0
  have hx : i % img.width < img.width := Nat.mod_lt _ hw
  have hy : i / img.width < img.height := Nat.div_lt_of_lt_mul hi
  have hdecomp : i / img.width * img.width + i % img.width = i := Nat.div_add_mod' i img.width
  have := foldl_dither_mem T img.width img.height (pixList img.width img.height)
    ⟨img.data, fun _ => 0⟩ (i / img.width) (i % img.width)
    (mem_pixList img.width img.height _ _ hy hx)
  rw [hdecomp] at this
  exact this

/-- Claim C3, witness: dithering a 1×1 mid-gray buffer yields a binarized
pixel. -/
theorem applyFloydSteinbergDither_binary_witness :
    (0:Nat) < 1 * 1 ∧ goodPix (applyFloydSteinbergDither 112 ⟨1, 1, fun _ => 127⟩).data 0 :=
  ⟨by decide, applyFloydSteinbergDither_binary 112 ⟨1, 1, fun _ => 127⟩ 0 (by decide)⟩

/-- `pixelIsWhite` of `trimImageMargins`: near-transparent (`alpha <= 10`) or
luminance at least the white threshold 250. `index` is the base byte index of
the pixel. -/
def pixelIsWhite (img : ImageData) (index : Nat) : Bool :=
  if img.data (index + 3) ≤ 10 then true
  else decide (250 ≤ luminanceQ (img.data index) (img.data (index + 1)) (img.data (index + 2)))

/-- `rowIsWhite`: every pixel of row `y` is near-white. -/
def rowIsWhite (img : ImageData) (y : Nat) : Bool :=
  (List.range img.width).all (fun x => pixelIsWhite img ((y * img.width + x) * 4))

/-- `columnIsWhite`: every pixel of column `x` between rows `top` and
`bottom` is near-white; an empty span (`bottom < top`) counts as white. -/
def columnIsWhite (img : ImageData) (x : Nat) (top : Nat) (bottom : Int) : Bool :=
  if bottom < (top : Int) then true
  else (List.range ((bottom.toNat - top) + 1)).all
    (fun k => pixelIsWhite img (((top + k) * img.width + x) * 4))

/-- The forward border scan `while i < bound && p i do i := i + 1`, started at
`i` with structural fuel; fuel `bound` (from start 0) always suffices since
each iteration increments `i` and the loop stops at `bound`. -/
def scanWhileNat (bound : Nat) (p : Nat → Bool) : Nat → Nat → Nat
  | 0, i => i
  | fuel + 1, i => if i < bound then (if p i then scanWhileNat bound p fuel (i + 1) else i) else i

/-- The backward border scan `while lo ≤ i && p i do i := i - 1`, with
structural fuel; fuel = buffer extent always suffices since each iteration
decrements `i` and the loop stops below `lo ≥ 0`. -/
def scanBackInt (lo : Int) (p : Int → Bool) : Nat → Int → Int
  | 0, i => i
  | fuel + 1, i => if lo ≤ i then (if p i then scanBackInt lo p fuel (i - 1) else i) else i

/-- The byte-alignment window adjustment of `trimImageMargins` (the
`remainder !== 0` block): symmetric expansion clamped to the buffer, then the
two shrink fallbacks.  Nat truncated subtraction models the `Math.max(0, ·)`
clamps of the source. -/
def adjustWindow (w left right : Nat) : Nat × Nat :=
  let trimWidth := right - left + 1
  if trimWidth % 8 = 0 then (left, right)
  else
    let extra := 8 - trimWidth % 8
    let extraLeft := extra / 2
    let extraRight := extra - extraLeft
    let l1 := left - extraLeft
    let r1 := min (w - 1) (right + extraRight)
    let tw1 := r1 - l1 + 1
    if tw1 % 8 = 0 then (l1, r1)
    else
      let targetWidth := min w (((tw1 + 7) / 8) * 8)
      let r2 := min (w - 1) (l1 + targetWidth - 1)
      let tw2 := r2 - l1 + 1
      if tw2 % 8 = 0 then (l1, r2)
      else ((r2 + 1) - targetWidth, r2)

/-- The `top` scan of `trimImageMargins`:
`while (top < height && rowIsWhite(top)) top++` from 0. -/
def trimTop (img : ImageData) : Nat :=
  scanWhileNat img.height (rowIsWhite img) img.height 0

/-- The `bottom` scan of `trimImageMargins`:
`while (bottom >= top && rowIsWhite(bottom)) bottom--` from `height - 1`. -/
def trimBottom (img : ImageData) : Int :=
  scanBackInt (trimTop img) (fun i => rowIsWhite img i.toNat) img.height ((img.height : Int) - 1)

/-- The `left` scan of `trimImageMargins`:
`while (left < width && columnIsWhite(left, top, bottom)) left++` from 0. -/
def trimLeft (img : ImageData) : Nat :=
  scanWhileNat img.width (fun x => columnIsWhite img x (trimTop img) (trimBottom img))
    img.width 0

/-- The `right` scan of `trimImageMargins`:
`while (right >= left && columnIsWhite(right, top, bottom)) right--` from
`width - 1`. -/
def trimRight (img : ImageData) : Int :=
  scanBackInt (trimLeft img) (fun i => columnIsWhite img i.toNat (trimTop img) (trimBottom img))
    img.width ((img.width : Int) - 1)

/-- `trimImageMargins`: scan near-white rows from the top and bottom and
near-white columns from the left and right; if the scan collapses (the image
is entirely near-white) return the input unchanged, otherwise byte-align the
window and materialize the sub-rectangle (pixels outside the source would be
the canvas' transparent black, though the window always stays in bounds). -/
def trimImageMargins (img : ImageData) : ImageData :=
  if (trimTop img : Int) > trimBottom img ∨ (trimLeft img : Int) > trimRight img then img
  else
    let w := img.width
    let top := trimTop img
    let lr := adjustWindow w (trimLeft img) (trimRight img).toNat
    let trimWidth := lr.2 - lr.1 + 1
    let trimHeight := (trimBottom img).toNat - top + 1
    ⟨trimWidth, trimHeight, fun j =>
      let q := j / 4
      let c := j % 4
      let x := q % trimWidth
      let y := q / trimWidth
      if x + lr.1 < w ∧ y + top < img.height then
        img.data (((y + top) * w + (x + lr.1)) * 4 + c)
      else 0⟩

theorem scanWhileNat_all (bound : Nat) (p : Nat → Bool) (hp : ∀ m, m < bound → p m = true) :
    ∀ fuel i, bound ≤ i + fuel → i ≤ bound → scanWhileNat bound p fuel i = bound := by
  intro fuel
  induction fuel with
  | zero =>
    intro i h1 h2
    unfold scanWhileNat
    omega
  | succ n ih =>
    intro i h1 h2
    unfold scanWhileNat
    by_cases hib : i < bound
    · rw [if_pos hib, if_pos (hp i hib)]
      exact ih (i + 1) (by omega) (by omega)
    · rw [if_neg hib]
      omega

theorem scanBackInt_stop (lo : Int) (p : Int → Bool) (fuel : Nat) (i : Int) (h : i < lo) :
    scanBackInt lo p fuel i = i := by
  cases fuel with
  | zero => rfl
  | succ n =>
    unfold scanBackInt
    rw [if_neg (by omega)]

/-- Claim C5: if every pixel of the buffer is near-white (alpha at most 10,
or luminance at least the white threshold 250), the border scans collapse and
`trimImageMargins` returns the original input unchanged. -/
theorem trimImageMargins_blank_identity (img : ImageData)
    (hw : ∀ y, y < img.height → ∀ x, x < img.width →
      pixelIsWhite img ((y * img.width + x) * 4) = true) :
    trimImageMargins img = img := by
  have hrow : ∀ m, m < img.height → rowIsWhite img m = true := by
    intro m hm
    unfold rowIsWhite
    rw [List.all_eq_true]
    intro x hx
    exact hw m hm x (List.mem_range.mp hx)
  have htop : trimTop img = img.height :=
    scanWhileNat_all _ _ hrow _ 0 (by omega) (by omega)
  have hbot : trimBottom img = (img.height : Int) - 1 := by
    unfold trimBottom
    rw [htop]
    exact scanBackInt_stop _ _ _ _ (by omega)
  unfold trimImageMargins
  rw [if_pos]
  rw [htop, hbot]
  left
  omega

/-- Claim C5, witness: trimming a 2×2 all-white buffer returns it unchanged. -/
theorem trimImageMargins_blank_identity_witness :
    (∀ y, y < 2 → ∀ x, x < 2 →
      pixelIsWhite ⟨2, 2, fun _ => 255⟩ ((y * 2 + x) * 4) = true) ∧
    trimImageMargins ⟨2, 2, fun _ => 255⟩ = (⟨2, 2, fun _ => 255⟩ : ImageData) :=
  ⟨by with_unfolding_all decide,
    trimImageMargins_blank_identity ⟨2, 2, fun _ => 255⟩ (by with_unfolding_all decide)⟩

theorem scanWhileNat_white (bound : Nat) (p : Nat → Bool) :
    ∀ fuel i m, i ≤ m → m < scanWhileNat bound p fuel i → p m = true := by
  intro fuel
  induction fuel with
  | zero =>
    intro i m h1 h2
    unfold scanWhileNat at h2
    omega
  | succ n ih =>
    intro i m h1 h2
    unfold scanWhileNat at h2
    by_cases hib : i < bound
    · rw [if_pos hib] at h2
      by_cases hpi : p i = true
      · rw [if_pos hpi] at h2
        rcases Nat.eq_or_lt_of_le h1 with he | hlt
        · rw [← he]
          exact hpi
        · exact ih (i + 1) m hlt h2
      · rw [if_neg hpi] at h2
        omega
    · rw [if_neg hib] at h2
      omega

theorem scanBackInt_white (lo : Int) (p : Int → Bool) :
    ∀ fuel i m, scanBackInt lo p fuel i < m → m ≤ i → p m = true := by
  intro fuel
  induction fuel with
  | zero =>
    intro i m h1 h2
    unfold scanBackInt at h1
    omega
  | succ n ih =>
    intro i m h1 h2
    unfold scanBackInt at h1
    by_cases hli : lo ≤ i
    · rw [if_pos hli] at h1
      by_cases hpi : p i = true
      · rw [if_pos hpi] at h1
        rcases eq_or_lt_of_le h2 with he | hlt
        · rw [he]
          exact hpi
        · exact ih (i - 1) m h1 (by omega)
      · rw [if_neg hpi] at h1
        omega
    · rw [if_neg hli] at h1
      omega

theorem scanBackInt_le (lo : Int) (p : Int → Bool) :
    ∀ fuel i, scanBackInt lo p fuel i ≤ i := by
  intro fuel
  induction fuel with
  | zero =>
    intro i
    unfold scanBackInt
    omega
  | succ n ih =>
    intro i
    unfold scanBackInt
    by_cases hli : lo ≤ i
    · rw [if_pos hli]
      by_cases hpi : p i = true
      · rw [if_pos hpi]
        have := ih (i - 1)
        omega
      · rw [if_neg hpi]
    · rw [if_neg hli]

theorem adjustWindow_aligned (w l r : Nat) (h8 : w % 8 = 0) (hlr : l ≤ r) (hrw : r < w) :
    ((adjustWindow w l r).2 - (adjustWindow w l r).1 + 1) % 8 = 0 := by
  dsimp only [adjustWindow]
  split_ifs <;> omega

/-- Claim C4 (amended): for every input buffer whose width is a multiple of 8
and which contains at least one non-near-white pixel (so trimming is not
abandoned), the trimmed output width is a multiple of 8.  (For input widths
that are not multiples of 8 the guarantee fails, see the counterexample.) -/
theorem trimImageMargins_width_aligned (img : ImageData) (h8 : img.width % 8 = 0)
    (hnw : ∃ y, y < img.height ∧ ∃ x, x < img.width ∧
      pixelIsWhite img ((y * img.width + x) * 4) = false) :
    (trimImageMargins img).width % 8 = 0 := by
  obtain ⟨y0, hy0, x0, hx0, hpix⟩ := hnw
  have hrow : rowIsWhite img y0 = false := by
    rw [Bool.eq_false_iff]
    intro hall
    rw [rowIsWhite, List.all_eq_true] at hall
    have h := hall x0 (List.mem_range.mpr hx0)
    rw [hpix] at h
    cases h
  have htop : trimTop img ≤ y0 := by
    by_contra hlt
    push_neg at hlt
    have h := scanWhileNat_white img.height (rowIsWhite img) img.height 0 y0 (Nat.zero_le _) hlt
    rw [hrow] at h
    cases h
  have hbot : (y0 : Int) ≤ trimBottom img := by
    by_contra hlt
    push_neg at hlt
    have hlt' : scanBackInt (trimTop img : Int) (fun i => rowIsWhite img i.toNat) img.height
        ((img.height : Int) - 1) < (y0 : Int) := hlt
    have h := scanBackInt_white (trimTop img : Int) (fun i => rowIsWhite img i.toNat)
      img.height ((img.height : Int) - 1) (y0 : Int) hlt' (by omega)
    have h' : rowIsWhite img ((y0 : Int)).toNat = true := h
    rw [Int.toNat_natCast, hrow] at h'
    cases h'
  have hcol : columnIsWhite img x0 (trimTop img) (trimBottom img) = false := by
    rw [Bool.eq_false_iff]
    intro hall
    unfold columnIsWhite at hall
    rw [if_neg (by omega), List.all_eq_true] at hall
    have hk : y0 - trimTop img ∈ List.range ((trimBottom img).toNat - trimTop img + 1) := by
      rw [List.mem_range]
      omega
    have h := hall _ hk
    have harg : trimTop img + (y0 - trimTop img) = y0 := by omega
    rw [harg, hpix] at h
    cases h
  have hleft : trimLeft img ≤ x0 := by
    by_contra hlt
    push_neg at hlt
    have h := scanWhileNat_white img.width
      (fun x => columnIsWhite img x (trimTop img) (trimBottom img)) img.width 0 x0
      (Nat.zero_le _) hlt
    have h' : columnIsWhite img x0 (trimTop img) (trimBottom img) = true := h
    rw [hcol] at h'
    cases h'
  have hright : (x0 : Int) ≤ trimRight img := by
    by_contra hlt
    push_neg at hlt
    have hlt' : scanBackInt (trimLeft img : Int)
        (fun i => columnIsWhite img i.toNat (trimTop img) (trimBottom img)) img.width
        ((img.width : Int) - 1) < (x0 : Int) := hlt
    have h := scanBackInt_white (trimLeft img : Int)
      (fun i => columnIsWhite img i.toNat (trimTop img) (trimBottom img)) img.width
      ((img.width : Int) - 1) (x0 : Int) hlt' (by omega)
    have h' : columnIsWhite img ((x0 : Int)).toNat (trimTop img) (trimBottom img) = true := h
    rw [Int.toNat_natCast, hcol] at h'
    cases h'
  have hr_le : trimRight img ≤ (img.width : Int) - 1 := scanBackInt_le _ _ _ _
  have hnc : ¬((trimTop img : Int) > trimBottom img ∨ (trimLeft img : Int) > trimRight img) := by
    push_neg
    exact ⟨by omega, by omega⟩
  unfold trimImageMargins
  rw [if_neg hnc]
  dsimp only
  exact adjustWindow_aligned img.width (trimLeft img) (trimRight img).toNat h8
    (by omega) (by omega)

/-- Claim C4, witness: the amended theorem applied to an 8×1 all-black
buffer; the trimmer keeps the full byte-aligned window. -/
theorem trimImageMargins_width_aligned_witness :
    ((8:Nat) % 8 = 0 ∧ (∃ y, y < 1 ∧ ∃ x, x < 8 ∧
      pixelIsWhite ⟨8, 1, fun i => if i % 4 = 3 then 255 else 0⟩ ((y * 8 + x) * 4) = false)) ∧
    (trimImageMargins ⟨8, 1, fun i => if i % 4 = 3 then 255 else 0⟩).width % 8 = 0 :=
  ⟨⟨by decide, ⟨0, by decide, 0, by decide, by with_unfolding_all decide⟩⟩,
    trimImageMargins_width_aligned ⟨8, 1, fun i => if i % 4 = 3 then 255 else 0⟩ (by decide)
      ⟨0, by decide, 0, by decide, by with_unfolding_all decide⟩⟩

/-- Claim C4, counterexample to the original claim: a 9×1 all-black opaque
buffer (width not a multiple of 8) has a non-white pixel, yet the trimmer
returns width 9: the shrink fallback computes `targetWidth = min(9, 16) = 9`,
which is itself not a multiple of 8. -/
theorem trimImageMargins_not_aligned_narrow :
    pixelIsWhite ⟨9, 1, fun i => if i % 4 = 3 then 255 else 0⟩ ((0 * 9 + 0) * 4) = false ∧
    (trimImageMargins ⟨9, 1, fun i => if i % 4 = 3 then 255 else 0⟩).width % 8 ≠ 0 := by
  with_unfolding_all decide

/-! Transfer layer: constants from `use-bluetooth-printer.js` (hook variant),
with the `App.jsx` variant's `BATCH_SIZE`/`BLE_WRITE_DELAY_MS` and the
other App variant's (`V2`) chunk/delay constants. -/

def BLE_CHUNK_SIZE_WITH_RESPONSE : Nat := 20

def BLE_CHUNK_SIZE_WITHOUT_RESPONSE : Nat := 120

def BLE_WRITE_DELAY_WITH_RESPONSE_MS : Nat := 2

def BLE_WRITE_DELAY_WITHOUT_RESPONSE_MS : Nat := 10

def PRINTER_RESET_COMMAND : List Nat := [0x1B, 0x40]

def DEFAULT_FEED_LINES : Int := 2

def DEFAULT_FEED_DOTS : Int := 50

def BLE_CHUNK_SIZE_WITH_RESPONSE_V2 : Nat := 256

def BLE_CHUNK_SIZE_WITHOUT_RESPONSE_V2 : Nat := 120

def BLE_WRITE_DELAY_WITH_RESPONSE_MS_V2 : Nat := 10

def BLE_WRITE_DELAY_WITHOUT_RESPONSE_MS_V2 : Nat := 30

def BATCH_SIZE : Nat := 256

def BLE_WRITE_DELAY_MS : Nat := 10

/-- The per-write pacing delay picked at the end of the hook's `writeChunk`,
from the current value of `canWriteWithoutResponseRef`. -/
def writeDelayMs (canWWR : Bool) : Nat :=
  if canWWR then BLE_WRITE_DELAY_WITHOUT_RESPONSE_MS else BLE_WRITE_DELAY_WITH_RESPONSE_MS

/-- The pacing delay of the other App variant's `writeChunk`. -/
def writeDelayMsV2 (canWWR : Bool) : Nat :=
  if canWWR then BLE_WRITE_DELAY_WITHOUT_RESPONSE_MS_V2 else BLE_WRITE_DELAY_WITH_RESPONSE_MS_V2

/-- The chunk size picked per iteration of the hook's `sendImageData`. -/
def chunkSizeFor (canWWR : Bool) : Nat :=
  if canWWR then BLE_CHUNK_SIZE_WITHOUT_RESPONSE else BLE_CHUNK_SIZE_WITH_RESPONSE

/-- A write mode attempted against the characteristic:
`writeValueWithoutResponse` (unacknowledged) or `writeValue` (acknowledged). -/
inductive WMode
  | unack
  | ack
deriving DecidableEq

/-- Result of one chunk delivery attempt. -/
inductive WResult
  | ok
  | err
deriving DecidableEq

/-- The connection-scoped mutable state the hook's write path reads:
whether `printCharacteristicRef` is populated and the
`canWriteWithoutResponseRef` capability flag. -/
structure LinkState where
  hasCharacteristic : Bool
  canWriteWithoutResponse : Bool
deriving DecidableEq

/-- The hook's `writeChunk`, with the success of the unacknowledged and the
acknowledged write given by oracles: no characteristic throws immediately
with no write attempt; a cleared capability flag goes straight to the
acknowledged write; an unacknowledged failure permanently clears the flag and
immediately retries the same chunk acknowledged, reporting failure only if
that fallback also fails.  Returns (result, new state, attempted modes). -/
def writeChunk (s : LinkState) (unackFails ackFails : Bool) :
    WResult × LinkState × List WMode :=
  if s.hasCharacteristic = false then (.err, s, [])
  else if s.canWriteWithoutResponse = false then
    (if ackFails then .err else .ok, s, [.ack])
  else if unackFails then
    (if ackFails then .err else .ok, ⟨s.hasCharacteristic, false⟩, [.unack, .ack])
  else (.ok, s, [.unack])

/-- A sequence of `writeChunk` calls over one connection, one oracle pair
(unack failure, ack failure) per call; returns the final state and the list
of attempted write modes of each call. -/
def runWrites : LinkState → List (Bool × Bool) → LinkState × List (List WMode)
  | s, [] => (s, [])
  | s, o :: rest =>
    let r := writeChunk s o.1 o.2
    let t := runWrites r.2.1 rest
    (t.1, r.2.2 :: t.2)

theorem writeChunk_flag_false (s : LinkState) (uf af : Bool)
    (h : s.canWriteWithoutResponse = false) :
    (writeChunk s uf af).2.1.canWriteWithoutResponse = false ∧
    (writeChunk s uf af).2.2.all (fun m => decide (m ≠ WMode.unack)) = true := by
  obtain ⟨hc, cw⟩ := s
  simp only at h
  subst h
  cases hc <;> cases uf <;> cases af <;> decide

theorem runWrites_flag_false (oracles : List (Bool × Bool)) :
    ∀ s : LinkState, s.canWriteWithoutResponse = false →
      (runWrites s oracles).1.canWriteWithoutResponse = false ∧
      (runWrites s oracles).2.all
        (fun att => att.all (fun m => decide (m ≠ WMode.unack))) = true := by
  induction oracles with
  | nil => intro s h; exact ⟨h, rfl⟩
  | cons o rest ih =>
    intro s h
    obtain ⟨h1, h2⟩ := writeChunk_flag_false s o.1 o.2 h
    obtain ⟨h3, h4⟩ := ih _ h1
    unfold runWrites
    simp only [List.all_cons]
    refine ⟨h3, ?_⟩
    simp only [Bool.and_eq_true, List.all_eq_true, decide_eq_true_eq] at h2 h4 ⊢
    exact ⟨h2, h4⟩

/-- Claim C8: on a connection with a characteristic and the capability flag
set, a failing unacknowledged write clears the flag, the same chunk is
immediately retried acknowledged (the attempt list is exactly
[unack, ack]), the chunk is reported failed only if that fallback also
fails, and no later write of the same connection ever attempts the
unacknowledged path again. -/
theorem writeChunk_downgrade_sticky (af : Bool) (oracles : List (Bool × Bool)) :
    (writeChunk ⟨true, true⟩ true af).2.1.canWriteWithoutResponse = false ∧
    (writeChunk ⟨true, true⟩ true af).2.2 = [WMode.unack, WMode.ack] ∧
    ((writeChunk ⟨true, true⟩ true af).1 = WResult.ok ↔ af = false) ∧
    (runWrites (writeChunk ⟨true, true⟩ true af).2.1 oracles).2.all
      (fun att => att.all (fun m => decide (m ≠ WMode.unack))) = true := by
  refine ⟨?_, ?_, ?_, ?_⟩
  · cases af <;> decide
  · cases af <;> decide
  · cases af <;> decide
  · exact (runWrites_flag_false oracles _ (by cases af <;> decide)).2

/-- Claim C9 (amended): the fixed inter-write delay is strictly longer, not
shorter, when the unacknowledged write mode is active: the hook uses 10 ms
after unacknowledged writes versus 2 ms after acknowledged ones, and the
other App variant uses 30 ms versus 10 ms. -/
theorem write_delay_longer_without_response :
    writeDelayMs false < writeDelayMs true ∧ writeDelayMsV2 false < writeDelayMsV2 true ∧
    writeDelayMs true = 10 ∧ writeDelayMs false = 2 ∧
    writeDelayMsV2 true = 30 ∧ writeDelayMsV2 false = 10 := by decide

/-- Claim C9, counterexample to the original claim: the delay in
unacknowledged mode is not strictly shorter than in acknowledged mode. -/
theorem write_delay_not_shorter : ¬ (writeDelayMs true < writeDelayMs false) := by decide

/-- The offset loop of `sendImageData`: from offset `i`, emit the byte range
`[i, min(i + chunkSize, length))` and continue from its end.  Structural fuel
`L` (from start 0) always suffices since every iteration advances the offset
by at least one when the chunk size is positive. -/
def chunkRangesAux (L C : Nat) : Nat → Nat → List (Nat × Nat)
  | 0, _ => []
  | fuel + 1, i =>
    if i < L then (i, min (i + C) L) :: chunkRangesAux L C fuel (min (i + C) L) else []

/-- The byte ranges written by one `sendImageData` transfer over a packed
buffer of length `L` with chunk size `C`; buffers of length at most 8
(header only or absent) are skipped entirely. -/
def sendImageDataRanges (L C : Nat) : List (Nat × Nat) :=
  if L ≤ 8 then [] else chunkRangesAux L C L 0

theorem chunkRangesAux_flatten (L C : Nat) (hC : 0 < C) :
    ∀ fuel i, L - i ≤ fuel →
      ((chunkRangesAux L C fuel i).map (fun p => List.range' p.1 (p.2 - p.1))).flatten =
        List.range' i (L - i) := by
  intro fuel
  induction fuel with
  | zero =>
    intro i h
    unfold chunkRangesAux
    rw [show L - i = 0 from by omega]
    rfl
  | succ n ih =>
    intro i h
    unfold chunkRangesAux
    by_cases hiL : i < L
    · rw [if_pos hiL]
      simp only [List.map_cons, List.flatten_cons]
      rw [ih (min (i + C) L) (by omega)]
      have hr := List.range'_append i (min (i + C) L - i) (L - min (i + C) L) 1
      rw [show i + 1 * (min (i + C) L - i) = min (i + C) L from by omega,
        show L - min (i + C) L + (min (i + C) L - i) = L - i from by omega] at hr
      exact hr
    · rw [if_neg hiL]
      rw [show L - i = 0 from by omega]
      rfl

theorem chunkRangesAux_mem (L C : Nat) :
    ∀ fuel i p, p ∈ chunkRangesAux L C fuel i →
      p.2 - p.1 ≤ C ∧ (p.2 - p.1 = C ∨ p.2 = L) := by
  intro fuel
  induction fuel with
  | zero =>
    intro i p hp
    cases hp
  | succ n ih =>
    intro i p hp
    unfold chunkRangesAux at hp
    by_cases hiL : i < L
    · rw [if_pos hiL] at hp
      rcases List.mem_cons.mp hp with he | hm
      · rw [he]
        constructor
        · simp only
          omega
        · simp only
          omega
      · exact ih _ p hm
    · rw [if_neg hiL] at hp
      cases hp

/-- Claim C6: the chunks of one `sendImageData` transfer cover `[0, L)`
exactly once in ascending order, every chunk is `C` bytes except a possibly
shorter final chunk, and a 1000-byte buffer with chunk size 120 yields
exactly 9 chunks with a final chunk of 40 bytes. -/
theorem sendImageData_chunk_coverage :
    (∀ L C, 0 < C → 8 < L →
      ((sendImageDataRanges L C).map (fun p => List.range' p.1 (p.2 - p.1))).flatten =
        List.range L ∧
      ∀ p ∈ sendImageDataRanges L C, p.2 - p.1 ≤ C ∧ (p.2 - p.1 = C ∨ p.2 = L)) ∧
    (sendImageDataRanges 1000 120).length = 9 ∧
    (sendImageDataRanges 1000 120).getLast? = some (960, 1000) := by
  refine ⟨?_, by decide, by decide⟩
  intro L C hC hL
  constructor
  · unfold sendImageDataRanges
    rw [if_neg (by omega)]
    have h := chunkRangesAux_flatten L C hC L 0 (by omega)
    rw [h, List.range_eq_range', Nat.sub_zero]
  · intro p hp
    unfold sendImageDataRanges at hp
    rw [if_neg (by omega)] at hp
    exact chunkRangesAux_mem L C L 0 p hp

/-- Claim C6, witness: the coverage part applied to a 10-byte buffer with
chunk size 3 (ranges (0,3), (3,6), (6,9), (9,10)). -/
theorem sendImageData_chunk_coverage_witness :
    ((0:Nat) < 3 ∧ (8:Nat) < 10) ∧
    (((sendImageDataRanges 10 3).map (fun p => List.range' p.1 (p.2 - p.1))).flatten =
      List.range 10 ∧
    ∀ p ∈ sendImageDataRanges 10 3, p.2 - p.1 ≤ 3 ∧ (p.2 - p.1 = 3 ∨ p.2 = 10)) :=
  ⟨⟨by decide, by decide⟩, sendImageData_chunk_coverage.1 10 3 (by decide) (by decide)⟩

/-- The chunk contents of one `sendImageData` transfer: `data.slice(i, i+C)`
per iteration; fuel `data.length` suffices for a positive chunk size. -/
def chunksOfFuel (C : Nat) : Nat → List Nat → List (List Nat)
  | 0, _ => []
  | _, [] => []
  | fuel + 1, l => l.take C :: chunksOfFuel C fuel (l.drop C)

/-- The list of chunk byte strings `sendImageData` writes over `data`. -/
def chunksOf (C : Nat) (data : List Nat) : List (List Nat) :=
  chunksOfFuel C data.length data

theorem chunksOf_flatten_aux (C : Nat) (hC : 0 < C) :
    ∀ fuel (l : List Nat), l.length ≤ fuel → (chunksOfFuel C fuel l).flatten = l := by
  intro fuel
  induction fuel with
  | zero =>
    intro l h
    have hnil : l = [] := List.eq_nil_of_length_eq_zero (by omega)
    subst hnil
    rfl
  | succ n ih =>
    intro l h
    cases l with
    | nil => rfl
    | cons x xs =>
      unfold chunksOfFuel
      simp only [List.flatten_cons]
      have hd : ((x :: xs).drop C).length ≤ n := by
        rw [List.length_drop]
        simp only [List.length_cons] at h ⊢
        omega
      rw [ih _ hd]
      exact List.take_append_drop C (x :: xs)

theorem chunksOf_flatten (C : Nat) (hC : 0 < C) (data : List Nat) :
    (chunksOf C data).flatten = data :=
  chunksOf_flatten_aux C hC data.length data le_rfl

/-- The chunk writes issued by the hook's `sendImageData` when the
capability flag is `canWWR` and no write fails (so the flag, and with it the
chunk size, stays constant); buffers of at most 8 bytes are skipped. -/
def sendImageDataTrace (canWWR : Bool) (data : List Nat) : List (List Nat) :=
  if data.length ≤ 8 then [] else chunksOf (chunkSizeFor canWWR) data

/-- The `while (remaining > 0)` loop of `sendFeedDots`, emitting
`ESC J amount` with `amount = min(255, remaining)`. -/
def sendFeedDotsLoop : Nat → Nat → List (List Nat)
  | 0, _ => []
  | _, 0 => []
  | fuel + 1, r => [0x1B, 0x4A, min 255 r] :: sendFeedDotsLoop fuel (r - min 255 r)

/-- `sendFeedDots`: with no characteristic it resolves successfully without
writing; otherwise the dot count is clamped to `[0, 1020]` and split into
`ESC J` commands of at most 255 dots each (writes assumed to succeed). -/
def sendFeedDots (hasChar : Bool) (dots : Int) : WResult × List (List Nat) :=
  if hasChar = false then (.ok, [])
  else
    let remaining := min 1020 (max 0 dots)
    (.ok, sendFeedDotsLoop remaining.toNat remaining.toNat)

/-- `sendFeedLines`: with no characteristic it resolves successfully without
writing; otherwise the line count is clamped to `[0, 255]`, a zero count is a
no-op, and a single `ESC d count` command is written. -/
def sendFeedLines (hasChar : Bool) (lines : Int) : WResult × List (List Nat) :=
  if hasChar = false then (.ok, [])
  else
    let count := min 255 (max 0 lines)
    if count = 0 then (.ok, [])
    else (.ok, [[0x1B, 0x64, count.toNat]])

/-- The wire writes of one transfer session of the hook's `sendPrinterData`
(characteristic present, all writes succeeding): the reset command, then the
bitmap chunks, then the dot-feed commands, then the line-feed command. -/
def sendPrinterData (canWWR : Bool) (data : List Nat) : List (List Nat) :=
  PRINTER_RESET_COMMAND ::
    (sendImageDataTrace canWWR data ++ (sendFeedDots true DEFAULT_FEED_DOTS).2 ++
      (sendFeedLines true DEFAULT_FEED_LINES).2)

/-- The wire writes of one transfer session of the `App.jsx` variant's
`sendPrinterData`: bitmap chunks of the fixed `BATCH_SIZE`, then dot-feed,
then line-feed — this variant never writes a reset command. -/
def appSendPrinterData (data : List Nat) : List (List Nat) :=
  (if data.length ≤ 8 then [] else chunksOf BATCH_SIZE data) ++
    (sendFeedDots true DEFAULT_FEED_DOTS).2 ++ (sendFeedLines true DEFAULT_FEED_LINES).2

/-- Claim C7 (amended): in the hook's `sendPrinterData` the session's write
sequence is, in strict program order, the 2-byte reset `0x1B 0x40` first,
then the bitmap chunks in ascending offset order (their concatenation is
exactly the packed buffer), then the dot-feed command for 50 dots, then the
line-feed command for 2 lines.  The `App.jsx` variant omits the reset (see
the counterexample). -/
theorem sendPrinterData_write_order (b : Bool) (data : List Nat) (hL : 8 < data.length) :
    (sendPrinterData b data).head? = some [0x1B, 0x40] ∧
    sendPrinterData b data =
      [0x1B, 0x40] ::
        (chunksOf (chunkSizeFor b) data ++ [[0x1B, 0x4A, 50]] ++ [[0x1B, 0x64, 2]]) ∧
    (chunksOf (chunkSizeFor b) data).flatten = data := by
  refine ⟨rfl, ?_, chunksOf_flatten _ (by cases b <;> decide) data⟩
  unfold sendPrinterData sendImageDataTrace
  rw [if_neg (by omega)]
  rfl

/-- Claim C7, witness: the hook ordering applied to a 9-byte packed buffer in
unacknowledged mode. -/
theorem sendPrinterData_write_order_witness :
    (8:Nat) < (List.replicate 9 7).length ∧
    ((sendPrinterData true (List.replicate 9 7)).head? = some [0x1B, 0x40] ∧
    sendPrinterData true (List.replicate 9 7) =
      [0x1B, 0x40] ::
        (chunksOf (chunkSizeFor true) (List.replicate 9 7) ++ [[0x1B, 0x4A, 50]] ++
          [[0x1B, 0x64, 2]]) ∧
    (chunksOf (chunkSizeFor true) (List.replicate 9 7)).flatten = List.replicate 9 7) :=
  ⟨by decide, sendPrinterData_write_order true (List.replicate 9 7) (by decide)⟩

/-- Claim C7, counterexample to the original claim: the `App.jsx` variant's
`sendPrinterData` never writes the reset command — its first write is already
the first bitmap chunk. -/
theorem appSendPrinterData_no_reset :
    PRINTER_RESET_COMMAND ∉ appSendPrinterData (List.replicate 9 7) ∧
    (appSendPrinterData (List.replicate 9 7)).head? = some (List.replicate 9 7) := by decide

/-- Claim C10 (amended): a bitmap chunk write (`writeChunk`) attempted with
no characteristic fails immediately with an error, attempting no write and
no retry; the dot-feed and line-feed sends, by contrast, resolve
successfully as silent no-ops (no error, nothing written) when no
characteristic is available. -/
theorem writeChunk_requires_characteristic :
    (∀ cw uf af : Bool, writeChunk ⟨false, cw⟩ uf af = (WResult.err, ⟨false, cw⟩, [])) ∧
    sendFeedDots false DEFAULT_FEED_DOTS = (WResult.ok, []) ∧
    sendFeedLines false DEFAULT_FEED_LINES = (WResult.ok, []) := by
  refine ⟨?_, rfl, rfl⟩
  intro cw uf af
  rfl

/-- Claim C10, counterexample to the original claim: with no characteristic,
`sendFeedDots` resolves successfully and writes nothing — it does not fail
with an error as the claim states. -/
theorem sendFeedDots_silent_without_characteristic :
    (sendFeedDots false DEFAULT_FEED_DOTS).1 = WResult.ok ∧
    (sendFeedDots false DEFAULT_FEED_DOTS).1 ≠ WResult.err ∧
    (sendFeedDots false DEFAULT_FEED_DOTS).2 = [] := by decide
